import Mathlib

/-!
Formalisation of the CuriosityEngine core from `src/engine/curiosity_engine.py`.

The engine's collaborators (completion provider, retriever, NLI model) are
external services; they are modelled as function parameters bundled in an
`Engine` record, mirroring the fields of the `CuriosityEngine` class.  Python
floats are modelled as rationals; `math.exp` is abstracted as the `expQ`
field (an arbitrary similarity transform), since the exact transcendental is
not representable.  Wall-clock time is abstracted: the per-round check
`time.time() - start > self.max_s` becomes the boolean `timeExceeded` indexed
by the round number, and the final `time.time() - start` is the `elapsed`
argument of `bounded_explore`.  A Python exception is modelled as
`Except.error`; the `IndexError` reachable in the parsing loop is made
explicit as an `Except.error` value.
-/

namespace Curiosity

/-- A candidate question together with its novelty score, the dictionary
`{"q": line, "novelty": novelty}` built in `generate_questions`. -/
structure Question where
  q : String
  novelty : ℚ
  deriving DecidableEq

/-- A contradiction record `{"a": a, "b": b, "contradiction": round(score, 3)}`
appended by `dissonance_scan`. -/
structure DissonancePair where
  a : String
  b : String
  contradiction : ℚ
  deriving DecidableEq

/-- Values stored in the session-result dictionary returned by
`bounded_explore`: a list of questions or a number. -/
inductive PyVal where
  | list (qs : List Question)
  | num (x : ℚ)
  deriving DecidableEq

/-- The engine configuration and its collaborators, mirroring the fields of
`CuriosityEngine.__init__` plus the injected collaborator callables. -/
structure Engine where
  /-- `self.retriever.search(query, k)`: list of `(text, distance)` hits. -/
  search : String → ℕ → List (String × ℚ)
  /-- similarity transform standing for `math.exp` applied to a negated
  clamped distance in `_novelty`. -/
  expQ : ℚ → ℚ
  /-- `self.router.completions(prompt)`: returns generated text, or raises
  (modelled by `Except.error`). -/
  complete : String → Except String String
  /-- `self.nli.contradiction(a, b)`: contradiction probability. -/
  nli : String → String → ℚ
  /-- `self.nov_thr`. -/
  nov_thr : ℚ
  /-- `self.max_r`. -/
  max_r : ℕ
  /-- whether `time.time() - start > self.max_s` holds at the start of the
  given round. -/
  timeExceeded : ℕ → Bool

/-- Python's `round` to an integer: round-half-to-even. -/
def roundHalfEven (x : ℚ) : ℤ :=
  let f := ⌊x⌋
  if x - f < 1 / 2 then f
  else if 1 / 2 < x - f then f + 1
  else if f % 2 = 0 then f else f + 1

/-- Python's `round(x, k)`. -/
def pyRound (x : ℚ) (k : ℕ) : ℚ := (roundHalfEven (x * 10 ^ k) : ℚ) / 10 ^ k

/-- Python's `str.strip()` on a list of characters. -/
def pyStripChars (cs : List Char) : List Char :=
  ((cs.dropWhile Char.isWhitespace).reverse.dropWhile Char.isWhitespace).reverse

/-- Python's `str.splitlines()`: split on newline characters. -/
def splitOnNl : List Char → List (List Char)
  | [] => [[]]
  | c :: cs =>
    if c = '\n' then [] :: splitOnNl cs
    else
      match splitOnNl cs with
      | [] => [[c]]
      | l :: ls => (c :: l) :: ls

/-- Python's `str.split(sep, 1)` when it produces two parts: the text before
the first occurrence of `sep` and the text after it; `none` when `sep` does
not occur (Python would return a single part). -/
def splitOnceChar (sep : Char) : List Char → Option (List Char × List Char)
  | [] => none
  | c :: cs =>
    if c = sep then some ([], cs)
    else (splitOnceChar sep cs).map fun p => (c :: p.1, p.2)

/-- The numbering-removal body in `generate_questions`:
`parts = line.split(".", 1) if "." in line[:3] else line.split(")", 1);
if len(parts) == 2: line = parts[1].strip()`. -/
def stripEnumSplit (line : List Char) : List Char :=
  let sep : Char := if (line.take 3).contains '.' then '.' else ')'
  match splitOnceChar sep line with
  | some p => pyStripChars p.2
  | none => line

/-- The minimum-length gate `if len(line) < 6: continue`. -/
def keepLine (line : List Char) : Option (List Char) :=
  if line.length < 6 then none else some line

/-- Processing of one raw completion line in `generate_questions`:
strip, skip blanks, conditionally remove a leading enumeration, and apply the
length gate.  `Except.error` models the `IndexError` raised by `line[1]`
when the stripped line is a single digit character (the first disjunct
`line[0].isdigit() and "." in line[:3]` is false, and the second disjunct
evaluates `line[1]` without a length check). -/
def processLine (raw : List Char) : Except String (Option (List Char)) :=
  match pyStripChars raw with
  | [] => .ok none
  | c0 :: rest =>
    if c0.isDigit ∧ ((c0 :: rest).take 3).contains '.' then
      .ok (keepLine (stripEnumSplit (c0 :: rest)))
    else if c0.isDigit then
      match rest with
      | [] => .error "IndexError"
      | c1 :: _ =>
        if c1 = ')' ∨ c1 = '.' then
          .ok (keepLine (stripEnumSplit (c0 :: rest)))
        else
          .ok (keepLine (c0 :: rest))
    else
      .ok (keepLine (c0 :: rest))

/-- The parsing loop of `generate_questions` over the split lines, collecting
surviving lines in order; the first `IndexError` aborts the whole call. -/
def parseLinesAux : List (List Char) → Except String (List String)
  | [] => .ok []
  | l :: ls =>
    match processLine l with
    | .error e => .error e
    | .ok none => parseLinesAux ls
    | .ok (some q) =>
      match parseLinesAux ls with
      | .error e => .error e
      | .ok rest => .ok (String.mk q :: rest)

/-- The pure parsing stage of `generate_questions`: from the raw completion
text to the list of accepted question strings. -/
def parseQuestions (raw : String) : Except String (List String) :=
  parseLinesAux (splitOnNl raw.toList)

/-- `CuriosityEngine._novelty`: 0.5 when retrieval returns no hits, otherwise
`1 - mean(sims)` clamped to `[0, 1]`, where each similarity is the transform
of the negated clamped distance. -/
def noveltyScore (e : Engine) (question : String) : ℚ :=
  let hits := e.search question 5
  if hits.isEmpty then 1 / 2
  else
    let sims := hits.map fun h => e.expQ (-(max h.2 0))
    let novelty := 1 - sims.sum / (sims.length : ℚ)
    max 0 (min 1 novelty)

/-- `self.rubric`. -/
def rubric : String :=
  "Ask succinct expert-level questions (why/what if/how). Hunt contradictions and edge cases. Avoid trivia."

/-- `self.prompt_template.format(rubric=self.rubric, ctx=context_block, n=n)`
with `context_block = "\n- ".join(context_lines)`. -/
def promptFor (ctx : List String) (n : ℕ) : String :=
  rubric ++ "\nContext:\n- " ++ String.intercalate "\n- " ctx ++
    "\n\nProduce up to " ++ toString n ++ " distinct questions (<=25 words). Number them."

/-- The comparison used by `questions.sort(key=lambda x: x["novelty"], reverse=True)`:
descending by novelty. -/
def novDescLE (p q : Question) : Prop := q.novelty ≤ p.novelty

instance : DecidableRel novDescLE := fun p q =>
  inferInstanceAs (Decidable (q.novelty ≤ p.novelty))

instance : IsTotal Question novDescLE :=
  ⟨fun p q => (le_total q.novelty p.novelty).imp id id⟩

instance : IsTrans Question novDescLE :=
  ⟨fun _ _ _ h1 h2 => le_trans h2 h1⟩

/-- `CuriosityEngine.generate_questions`: retrieve context, build the prompt,
call the completion collaborator, parse the numbered list, score each line
and sort descending by novelty.  Python's `list.sort` is stable; a stable
descending sort is extensionally `List.insertionSort novDescLE`. -/
def generate_questions (e : Engine) (topic : String) (n : ℕ) :
    Except String (List Question) :=
  let context_hits := e.search topic 6
  let context_lines := context_hits.map Prod.fst
  let prompt := promptFor context_lines n
  match e.complete prompt with
  | .error err => .error err
  | .ok raw =>
    match parseQuestions raw with
    | .error err => .error err
    | .ok ls =>
      let questions := ls.map fun l => { q := l, novelty := noveltyScore e l : Question }
      .ok (List.insertionSort novDescLE questions)

/-- The round loop of `bounded_explore`: `fuel` is the number of remaining
iterations of `for _ in range(self.max_r)`, `k` the index of the current
round (for the time check), `seed` the current seed and `acc` the trail
accumulated so far. -/
def exploreLoop (e : Engine) (perRound : ℕ) :
    ℕ → ℕ → String → List Question → Except String (List Question)
  | 0, _, _, acc => .ok acc
  | fuel + 1, k, seed, acc =>
    if e.timeExceeded k then .ok acc
    else
      match generate_questions e seed perRound with
      | .error err => .error err
      | .ok batch =>
        let fresh := batch.filter fun q => e.nov_thr ≤ q.novelty
        match fresh with
        | [] => .ok acc
        | f0 :: rest => exploreLoop e perRound fuel (k + 1) f0.q (acc ++ f0 :: rest)

/-- `CuriosityEngine.bounded_explore`: run the bounded round loop from the
seed and return the dictionary
`{"trail": trail, "elapsed_s": round(time.time() - start, 2)}`, modelled as
an association list.  `elapsed` stands for the final `time.time() - start`. -/
def bounded_explore (e : Engine) (seed : String) (perRound : ℕ) (elapsed : ℚ) :
    Except String (List (String × PyVal)) :=
  match exploreLoop e perRound e.max_r 0 seed [] with
  | .error err => .error err
  | .ok trail =>
      .ok [("trail", PyVal.list trail), ("elapsed_s", PyVal.num (pyRound elapsed 2))]

/-- The nested loop shape `for i in range(n): for j in range(i + 1, n)` over
the input texts, collecting the optional result of the loop body at
`(texts[i], texts[j])`. -/
def pairLoop {α : Type} (g : String → String → Option α) (texts : List String) : List α :=
  (List.range texts.length).flatMap fun i =>
    ((List.range texts.length).drop (i + 1)).filterMap fun j =>
      g (texts.getD i "") (texts.getD j "")

/-- `CuriosityEngine.dissonance_scan`: evaluate every index pair `(i, j)`
with `i < j` and record the pairs whose contradiction probability reaches
the threshold. -/
def dissonance_scan (e : Engine) (texts : List String) (threshold : ℚ) :
    List DissonancePair :=
  pairLoop
    (fun a b =>
      let score := e.nli a b
      if threshold ≤ score then
        some { a := a, b := b, contradiction := pyRound score 3 }
      else none)
    texts

/-- The list of ordered pairs `(texts[i], texts[j])`, `i < j`, submitted to
the NLI collaborator by `dissonance_scan`, in iteration order. -/
def evaluatedPairs : List String → List (String × String)
  | [] => []
  | a :: rest => (rest.map fun b => (a, b)) ++ evaluatedPairs rest

/-- The trail component of a `bounded_explore` result. -/
def trailOf : Except String (List (String × PyVal)) → List Question
  | .ok r =>
    match r.lookup "trail" with
    | some (PyVal.list t) => t
    | _ => []
  | .error _ => []

/-- The keys of a successful `bounded_explore` result dictionary. -/
def resultKeys : Except String (List (String × PyVal)) → List String
  | .ok r => r.map Prod.fst
  | .error _ => []

/-- The unordered pair of texts named by a dissonance record, as a two-element
multiset (so that orientation is forgotten). -/
def pairKey (d : DissonancePair) : Multiset String := {d.a, d.b}

deriving instance DecidableEq for Except

/-- A concrete engine: empty knowledge store, completion collaborator always
returning the single line `abcdef`, default threshold 0.35, one round, no
time-budget overrun. -/
def engA : Engine where
  search := fun _ _ => []
  expQ := fun _ => 0
  complete := fun _ => .ok "abcdef"
  nli := fun _ _ => 0
  nov_thr := 7 / 20
  max_r := 1
  timeExceeded := fun _ => false

/-- A concrete engine whose completion collaborator returns two valid lines
regardless of the requested count. -/
def engB : Engine where
  search := fun _ _ => []
  expQ := fun _ => 0
  complete := fun _ => .ok "abcdefg\nhijklmn"
  nli := fun _ _ => 0
  nov_thr := 7 / 20
  max_r := 1
  timeExceeded := fun _ => false

/-- A concrete engine whose completion collaborator signals a missing API key
by returning a short diagnostic string in place of generated text, as
`ModelRouter._call_openai` does. -/
def engDiag : Engine where
  search := fun _ _ => []
  expQ := fun _ => 0
  complete := fun _ => .ok "[OPENAI] missing OPENAI_API_KEY"
  nli := fun _ _ => 0
  nov_thr := 7 / 20
  max_r := 1
  timeExceeded := fun _ => false

/-- A concrete engine whose completion collaborator succeeds on the first
round's prompt (the one built from empty context) and raises on every other
prompt; the knowledge store returns a context hit for every query except the
initial seed, so the second round's prompt differs from the first and the
fault strikes mid-session, after a candidate has been accepted. -/
def engMid : Engine where
  search := fun q _ => if q = "start" then [] else [("c", 0)]
  expQ := fun _ => 0
  complete := fun p => if p = promptFor [] 6 then .ok "abcdef" else .error "boom"
  nli := fun _ _ => 0
  nov_thr := 7 / 20
  max_r := 2
  timeExceeded := fun _ => false

/-- A directional contradiction collaborator: reports a contradiction for the
ordered pair `("p", "q")` only. -/
def nliAsym : String → String → ℚ := fun a b => if a = "p" ∧ b = "q" then 1 else 0

/-- A concrete engine with the directional contradiction collaborator. -/
def engAsym : Engine where
  search := fun _ _ => []
  expQ := fun _ => 0
  complete := fun _ => .error "unused"
  nli := nliAsym
  nov_thr := 7 / 20
  max_r := 1
  timeExceeded := fun _ => false

/-- A concrete engine with a symmetric contradiction collaborator. -/
def engSym : Engine where
  search := fun _ _ => []
  expQ := fun _ => 0
  complete := fun _ => .error "unused"
  nli := fun _ _ => 1
  nov_thr := 7 / 20
  max_r := 1
  timeExceeded := fun _ => false

theorem pyRound_zero_two : pyRound 0 2 = 0 := by
  norm_num [pyRound, roundHalfEven]

theorem engA_run : bounded_explore engA "gravity" 6 0
    = .ok [("trail", PyVal.list [⟨"abcdef", 1 / 2⟩]), ("elapsed_s", PyVal.num 0)] := by
  simp [bounded_explore, exploreLoop, generate_questions, engA, parseQuestions, parseLinesAux,
    splitOnNl, processLine, pyStripChars, keepLine, noveltyScore, List.insertionSort,
    pyRound, roundHalfEven]
  norm_num

theorem engB_parse : parseQuestions "abcdefg\nhijklmn" = .ok ["abcdefg", "hijklmn"] := by
  decide

theorem engB_gen : generate_questions engB "seed" 1
    = .ok [⟨"abcdefg", 1 / 2⟩, ⟨"hijklmn", 1 / 2⟩] := by
  simp [generate_questions, engB, parseQuestions, parseLinesAux, splitOnNl, processLine,
    pyStripChars, keepLine, noveltyScore, List.insertionSort, List.orderedInsert, novDescLE]

theorem engB_run : bounded_explore engB "seed" 1 0
    = .ok [("trail", PyVal.list [⟨"abcdefg", 1 / 2⟩, ⟨"hijklmn", 1 / 2⟩]),
           ("elapsed_s", PyVal.num 0)] := by
  simp [bounded_explore, exploreLoop, generate_questions, engB, parseQuestions, parseLinesAux,
    splitOnNl, processLine, pyStripChars, keepLine, noveltyScore, List.insertionSort,
    List.orderedInsert, novDescLE, pyRound, roundHalfEven]
  norm_num

theorem engDiag_run : bounded_explore engDiag "black holes" 6 0
    = .ok [("trail", PyVal.list [⟨"[OPENAI] missing OPENAI_API_KEY", 1 / 2⟩]),
           ("elapsed_s", PyVal.num 0)] := by
  simp [bounded_explore, exploreLoop, generate_questions, engDiag, parseQuestions, parseLinesAux,
    splitOnNl, processLine, pyStripChars, keepLine, noveltyScore, List.insertionSort,
    pyRound, roundHalfEven]
  norm_num

/-- C2: `NoveltyScorer.score` always lies in `[0, 1]`; it is exactly `0.5`
when the knowledge-store lookup returns no neighbours, and otherwise it is
one minus the mean of the similarity transform of the clamped distances,
clamped to `[0, 1]`. -/
theorem noveltyScore_contract (e : Engine) (q : String) :
    (0 ≤ noveltyScore e q ∧ noveltyScore e q ≤ 1)
    ∧ (e.search q 5 = [] → noveltyScore e q = 1 / 2)
    ∧ (e.search q 5 ≠ [] →
        noveltyScore e q
          = max 0 (min 1 (1 -
              ((e.search q 5).map fun h => e.expQ (-(max h.2 0))).sum /
                (((e.search q 5).map fun h => e.expQ (-(max h.2 0))).length : ℚ)))) := by
  by_cases he : e.search q 5 = []
  · have hv : noveltyScore e q = 1 / 2 := by simp [noveltyScore, he]
    refine ⟨⟨by rw [hv]; norm_num, by rw [hv]; norm_num⟩, fun _ => hv, fun hne => absurd he hne⟩
  · have hv : noveltyScore e q
        = max 0 (min 1 (1 -
            ((e.search q 5).map fun h => e.expQ (-(max h.2 0))).sum /
              (((e.search q 5).map fun h => e.expQ (-(max h.2 0))).length : ℚ))) := by
      simp only [noveltyScore, List.isEmpty_iff]
      rw [if_neg he]
    refine ⟨⟨?_, ?_⟩, fun h0 => absurd h0 he, fun _ => hv⟩
    · rw [hv]; exact le_max_left _ _
    · rw [hv]; exact max_le (by norm_num) (min_le_left _ _)

theorem noveltyScore_contract_witness : noveltyScore engA "anything" = 1 / 2 :=
  (noveltyScore_contract engA "anything").2.1 rfl

/-- C7: an empty completion parses to the empty list, and a completion in
which no line survives the rules also parses to the empty list; but the
parsing loop is not total: a line consisting of a single digit character
makes the second disjunct of the numbering test read `line[1]` out of
bounds, raising `IndexError` instead of returning a batch. -/
theorem parseQuestions_single_digit_error :
    parseQuestions "" = .ok []
    ∧ parseQuestions "1. abc\nxyz" = .ok []
    ∧ parseQuestions "7" = .error "IndexError" := by
  refine ⟨by decide, by decide, by decide⟩

theorem generate_questions_inv (e : Engine) (topic : String) (n : ℕ)
    (batch : List Question) (h : generate_questions e topic n = .ok batch) :
    ∃ raw ls, e.complete (promptFor ((e.search topic 6).map Prod.fst) n) = .ok raw
      ∧ parseQuestions raw = .ok ls
      ∧ batch = List.insertionSort novDescLE
          (ls.map fun l => { q := l, novelty := noveltyScore e l }) := by
  cases hc : e.complete (promptFor ((e.search topic 6).map Prod.fst) n) with
  | error err =>
    simp only [generate_questions, hc] at h
    exact Except.noConfusion h
  | ok raw =>
    cases hp : parseQuestions raw with
    | error err =>
      simp only [generate_questions, hc, hp] at h
      exact Except.noConfusion h
    | ok ls =>
      simp only [generate_questions, hc, hp, Except.ok.injEq] at h
      exact ⟨raw, ls, rfl, hp, h.symm⟩

theorem exploreLoop_ok_mem (e : Engine) (perRound : ℕ) :
    ∀ (fuel k : ℕ) (seed : String) (acc out : List Question),
      exploreLoop e perRound fuel k seed acc = .ok out →
      ∀ qq ∈ out, qq ∈ acc ∨ e.nov_thr ≤ qq.novelty := by
  intro fuel
  induction fuel with
  | zero =>
    intro k seed acc out h qq hq
    simp only [exploreLoop] at h
    injection h with h
    subst h
    exact .inl hq
  | succ m ih =>
    intro k seed acc out h qq hq
    simp only [exploreLoop] at h
    split at h
    · injection h with h; subst h; exact .inl hq
    · split at h
      · cases h
      · split at h
        · injection h with h; subst h; exact .inl hq
        · rename_i f0 rest hfil
          rcases ih _ _ _ _ h qq hq with hin | hle
          · rcases List.mem_append.mp hin with ha | hf
            · exact .inl ha
            · right
              have hmem := hfil ▸ hf
              exact of_decide_eq_true (List.mem_filter.mp hmem).2
          · exact .inr hle

theorem bounded_explore_ok_trail (e : Engine) (seed : String) (perRound : ℕ) (elapsed : ℚ)
    (res : List (String × PyVal)) (t : List Question)
    (h : bounded_explore e seed perRound elapsed = .ok res)
    (ht : ("trail", PyVal.list t) ∈ res) :
    exploreLoop e perRound e.max_r 0 seed [] = .ok t := by
  unfold bounded_explore at h
  cases hl : exploreLoop e perRound e.max_r 0 seed [] with
  | error err => rw [hl] at h; cases h
  | ok trail =>
    rw [hl] at h
    injection h with h
    subst h
    simp only [List.mem_cons, List.not_mem_nil, or_false, Prod.mk.injEq] at ht
    rcases ht with ⟨-, ht⟩ | ⟨hk, -⟩
    · injection ht with ht
      rw [ht]
    · exact absurd hk (by decide)

/-- C3: every `CandidateQuestion` in the trail of a `bounded_explore` session
satisfies `novelty >= novelty_threshold`; the filter admits a question into
the trail only when the threshold is met, so the property holds of the whole
trail when the session ends. -/
theorem bounded_explore_trail_novelty (e : Engine) (seed : String) (perRound : ℕ)
    (elapsed : ℚ) (res : List (String × PyVal)) (t : List Question)
    (h : bounded_explore e seed perRound elapsed = .ok res)
    (ht : ("trail", PyVal.list t) ∈ res) :
    ∀ qq ∈ t, e.nov_thr ≤ qq.novelty := by
  intro qq hq
  have hl := bounded_explore_ok_trail e seed perRound elapsed res t h ht
  rcases exploreLoop_ok_mem e perRound e.max_r 0 seed [] t hl qq hq with hin | hle
  · exact absurd hin (List.not_mem_nil qq)
  · exact hle

theorem bounded_explore_trail_novelty_witness :
    engA.nov_thr ≤ (Question.mk "abcdef" (1 / 2)).novelty :=
  bounded_explore_trail_novelty engA "gravity" 6 0
    [("trail", PyVal.list [⟨"abcdef", 1 / 2⟩]), ("elapsed_s", PyVal.num 0)]
    [⟨"abcdef", 1 / 2⟩] engA_run (by simp)
    (Question.mk "abcdef" (1 / 2)) (by simp)

/-- C1 (counterexample): at a concrete seed and `per_round`, the dictionary
returned by `bounded_explore` has exactly the keys `trail` and `elapsed_s`;
no `termination_reason` field is present. -/
theorem bounded_explore_no_termination_reason :
    resultKeys (bounded_explore engA "gravity" 6 0) = ["trail", "elapsed_s"]
    ∧ "termination_reason" ∉ resultKeys (bounded_explore engA "gravity" 6 0) := by
  have hk : resultKeys (bounded_explore engA "gravity" 6 0) = ["trail", "elapsed_s"] := by
    rw [engA_run]
    rfl
  rw [hk]
  exact ⟨rfl, by decide⟩

/-- C1 (amended): every successful `bounded_explore` result is a dictionary
with exactly the keys `trail` and `elapsed_s`, in that order; the loop stops
at `max_rounds`, at the round-start time check, or on an empty fresh batch,
but no `termination_reason` field records which. -/
theorem bounded_explore_result_keys (e : Engine) (seed : String) (perRound : ℕ)
    (elapsed : ℚ) (res : List (String × PyVal))
    (h : bounded_explore e seed perRound elapsed = .ok res) :
    res.map Prod.fst = ["trail", "elapsed_s"] := by
  unfold bounded_explore at h
  cases hl : exploreLoop e perRound e.max_r 0 seed [] with
  | error err => rw [hl] at h; cases h
  | ok trail => rw [hl] at h; injection h with h; subst h; rfl

theorem bounded_explore_result_keys_witness :
    ([("trail", PyVal.list [⟨"abcdef", 1 / 2⟩]), ("elapsed_s", PyVal.num 0)]
        : List (String × PyVal)).map Prod.fst = ["trail", "elapsed_s"] :=
  bounded_explore_result_keys engA "gravity" 6 0 _ engA_run

theorem exploreLoop_length (e : Engine) (perRound : ℕ)
    (hgen : ∀ prompt raw ls, e.complete prompt = .ok raw →
      parseQuestions raw = .ok ls → ls.length ≤ perRound) :
    ∀ (fuel k : ℕ) (seed : String) (acc out : List Question),
      exploreLoop e perRound fuel k seed acc = .ok out →
      out.length ≤ acc.length + fuel * perRound := by
  intro fuel
  induction fuel with
  | zero =>
    intro k seed acc out h
    simp only [exploreLoop] at h
    injection h with h
    subst h
    simp
  | succ m ih =>
    intro k seed acc out h
    simp only [exploreLoop] at h
    by_cases htime : e.timeExceeded k
    · rw [if_pos htime] at h
      injection h with h
      subst h
      exact Nat.le_add_right _ _
    · rw [if_neg htime] at h
      cases hbatch : generate_questions e seed perRound with
      | error err =>
        simp only [hbatch] at h
        exact Except.noConfusion h
      | ok batch =>
        simp only [hbatch] at h
        cases hfil : batch.filter (fun q => decide (e.nov_thr ≤ q.novelty)) with
        | nil =>
          simp only [hfil] at h
          injection h with h
          subst h
          exact Nat.le_add_right _ _
        | cons f0 rest =>
          simp only [hfil] at h
          have hrec := ih _ _ _ _ h
          obtain ⟨raw, ls, hcr, hpr, hb⟩ := generate_questions_inv _ _ _ _ hbatch
          have hlen : batch.length ≤ perRound := by
            rw [hb, (List.perm_insertionSort _ _).length_eq, List.length_map]
            exact hgen _ _ _ hcr hpr
          have hfl : (f0 :: rest).length ≤ batch.length := by
            rw [← hfil]
            exact List.length_filter_le _ _
          rw [List.length_append] at hrec
          rw [Nat.succ_mul]
          omega

/-- C4 (counterexample): with `max_rounds = 1` and `per_round = 1`, a
completion collaborator that returns two valid lines makes the trail longer
than `max_rounds * per_round`: the generator imposes no cap of `n` on the
parsed batch. -/
theorem bounded_explore_trail_length_cex :
    ¬ ((trailOf (bounded_explore engB "seed" 1 0)).length ≤ engB.max_r * 1) := by
  rw [engB_run]
  decide

/-- C4 (amended): if every batch the completion collaborator induces parses
to at most `per_round` lines, then the trail of a `bounded_explore` session
has length at most `max_rounds * per_round`.  Without that proviso the bound
can be exceeded, since `generate_questions` never truncates the parsed list
to the requested count. -/
theorem bounded_explore_trail_length (e : Engine) (seed : String) (perRound : ℕ)
    (elapsed : ℚ) (res : List (String × PyVal)) (t : List Question)
    (hgen : ∀ prompt raw ls, e.complete prompt = .ok raw →
      parseQuestions raw = .ok ls → ls.length ≤ perRound)
    (h : bounded_explore e seed perRound elapsed = .ok res)
    (ht : ("trail", PyVal.list t) ∈ res) :
    t.length ≤ e.max_r * perRound := by
  have hl := bounded_explore_ok_trail e seed perRound elapsed res t h ht
  have := exploreLoop_length e perRound hgen e.max_r 0 seed [] t hl
  simpa using this

theorem bounded_explore_trail_length_witness :
    ([⟨"abcdef", 1 / 2⟩] : List Question).length ≤ engA.max_r * 1 :=
  bounded_explore_trail_length engA "gravity" 1 0
    [("trail", PyVal.list [⟨"abcdef", 1 / 2⟩]), ("elapsed_s", PyVal.num 0)]
    [⟨"abcdef", 1 / 2⟩]
    (by
      intro prompt raw ls h1 h2
      injection h1 with h1
      rw [← h1] at h2
      rw [show parseQuestions "abcdef" = .ok ["abcdef"] by decide] at h2
      injection h2 with h2
      rw [← h2]
      decide)
    (by
      simp [bounded_explore, exploreLoop, generate_questions, engA, parseQuestions,
        parseLinesAux, splitOnNl, processLine, pyStripChars, keepLine, noveltyScore,
        List.insertionSort, pyRound, roundHalfEven]
      norm_num)
    (by simp)

theorem filterMap_range_getD {α : Type} (h : String → Option α) (l : List String) :
    (List.range l.length).filterMap (fun j => h (l.getD j "")) = l.filterMap h := by
  induction l with
  | nil => rfl
  | cons a t ih =>
    rw [List.length_cons, List.range_succ_eq_map, List.filterMap_cons, List.filterMap_map]
    simp only [Function.comp_def, List.getD_cons_zero, List.getD_cons_succ, ih]
    cases hha : h a with
    | none => simp [List.filterMap_cons, hha]
    | some b => simp [List.filterMap_cons, hha]

theorem pairLoop_cons {α : Type} (g : String → String → Option α) (a : String)
    (l : List String) :
    pairLoop g (a :: l) = l.filterMap (g a) ++ pairLoop g l := by
  unfold pairLoop
  rw [List.length_cons, List.range_succ_eq_map, List.flatMap_cons, List.flatMap_map]
  congr 1
  · rw [Nat.zero_add, List.drop_succ_cons, List.drop_zero, List.filterMap_map]
    have hcomp : ((fun j => g ((a :: l).getD 0 "") ((a :: l).getD j "")) ∘ Nat.succ)
        = fun j => g a (l.getD j "") := by
      funext j
      simp
    rw [hcomp, filterMap_range_getD]
  · congr 1
    funext i
    simp only [Function.comp_apply, List.drop_succ_cons, ← List.map_drop, List.filterMap_map]
    congr 1

theorem evaluatedPairs_eq_pairLoop (l : List String) :
    pairLoop (fun a b => some (a, b)) l = evaluatedPairs l := by
  induction l with
  | nil => rfl
  | cons a t ih =>
    rw [pairLoop_cons, evaluatedPairs, ih]
    congr 1
    rw [← List.filterMap_eq_map (fun b => (a, b))]
    rfl

theorem evaluatedPairs_length (l : List String) :
    (evaluatedPairs l).length = l.length * (l.length - 1) / 2 := by
  have h2 : 2 * (evaluatedPairs l).length = l.length * (l.length - 1) := by
    induction l with
    | nil => rfl
    | cons a t ih =>
      rw [evaluatedPairs, List.length_append, List.length_map, Nat.mul_add, ih, List.length_cons]
      cases t.length with
      | zero => rfl
      | succ m =>
        simp only [Nat.add_sub_cancel, Nat.succ_sub_one]
        ring
  omega

/-- C5: `dissonance_scan` submits exactly the pairs `(texts[i], texts[j])`
with `i < j`, whose count is `n * (n - 1) / 2`, to the contradiction
collaborator, and its output is exactly the filtered map over that pair
sequence in ascending `(i, j)` iteration order (not sorted by score): the
entries whose probability reaches the threshold, each recorded with the
probability rounded to three digits. -/
theorem dissonance_scan_spec (e : Engine) (texts : List String) (threshold : ℚ) :
    dissonance_scan e texts threshold
      = (evaluatedPairs texts).filterMap (fun ab =>
          if threshold ≤ e.nli ab.1 ab.2 then
            some { a := ab.1, b := ab.2, contradiction := pyRound (e.nli ab.1 ab.2) 3 }
          else none)
    ∧ (evaluatedPairs texts).length = texts.length * (texts.length - 1) / 2 := by
  refine ⟨?_, evaluatedPairs_length texts⟩
  induction texts with
  | nil => rfl
  | cons a t ih =>
    show pairLoop _ (a :: t) = _
    rw [pairLoop_cons, evaluatedPairs, List.filterMap_append, List.filterMap_map]
    congr 1

theorem dissonance_scan_cons (e : Engine) (thr : ℚ) (a : String) (t : List String) :
    dissonance_scan e (a :: t) thr
      = (t.filterMap fun b =>
          if thr ≤ e.nli a b then
            some { a := a, b := b, contradiction := pyRound (e.nli a b) 3 }
          else none) ++ dissonance_scan e t thr := by
  show pairLoop _ (a :: t) = _
  rw [pairLoop_cons]
  rfl

theorem scanKeys_cons (e : Engine) (thr : ℚ) (a : String) (t : List String) :
    (dissonance_scan e (a :: t) thr).map pairKey
      = (t.filterMap fun b =>
          if thr ≤ e.nli a b then some ({a, b} : Multiset String) else none)
        ++ (dissonance_scan e t thr).map pairKey := by
  rw [dissonance_scan_cons, List.map_append, List.map_filterMap]
  have hfun : (fun x => Option.map pairKey
        (if thr ≤ e.nli a x then
          some { a := a, b := x, contradiction := pyRound (e.nli a x) 3 }
        else none))
      = fun b => if thr ≤ e.nli a b then some ({a, b} : Multiset String) else none := by
    funext b
    by_cases h : thr ≤ e.nli a b <;> simp [h, pairKey]
  rw [hfun]

/-- C9 (amended): provided the contradiction collaborator is symmetric
(`contradiction(a, b) = contradiction(b, a)`), two inputs that are
permutations of each other make `dissonance_scan` produce the same multiset
(hence the same set) of unordered text pairs.  Without symmetry this fails,
because a permutation can present a pair to the collaborator in the opposite
orientation. -/
theorem dissonance_scan_perm_invariant (e : Engine) (thr : ℚ) (l₁ l₂ : List String)
    (hsym : ∀ a b, e.nli a b = e.nli b a) (hp : l₁.Perm l₂) :
    ((dissonance_scan e l₁ thr).map pairKey).Perm
      ((dissonance_scan e l₂ thr).map pairKey) := by
  induction hp with
  | nil => exact .refl _
  | cons x h ih =>
    rw [scanKeys_cons, scanKeys_cons]
    exact (h.filterMap _).append ih
  | swap x y l =>
    rw [scanKeys_cons, scanKeys_cons, scanKeys_cons, scanKeys_cons]
    by_cases hc : thr ≤ e.nli x y
    · have hc2 : thr ≤ e.nli y x := by rw [hsym y x]; exact hc
      have e1 : List.filterMap
            (fun b => if thr ≤ e.nli y b then some ({y, b} : Multiset String) else none) (x :: l)
          = ({y, x} : Multiset String)
            :: List.filterMap
              (fun b => if thr ≤ e.nli y b then some ({y, b} : Multiset String) else none) l := by
        simp [List.filterMap_cons, hc2]
      have e2 : List.filterMap
            (fun b => if thr ≤ e.nli x b then some ({x, b} : Multiset String) else none) (y :: l)
          = ({x, y} : Multiset String)
            :: List.filterMap
              (fun b => if thr ≤ e.nli x b then some ({x, b} : Multiset String) else none) l := by
        simp [List.filterMap_cons, hc]
      rw [e1, e2, show ({y, x} : Multiset String) = {x, y} from Multiset.pair_comm y x]
      exact (List.perm_append_comm_assoc _ _ _).cons _
    · have hc2 : ¬ thr ≤ e.nli y x := by rw [hsym y x]; exact hc
      have e1 : List.filterMap
            (fun b => if thr ≤ e.nli y b then some ({y, b} : Multiset String) else none) (x :: l)
          = List.filterMap
              (fun b => if thr ≤ e.nli y b then some ({y, b} : Multiset String) else none) l := by
        simp [List.filterMap_cons, hc2]
      have e2 : List.filterMap
            (fun b => if thr ≤ e.nli x b then some ({x, b} : Multiset String) else none) (y :: l)
          = List.filterMap
              (fun b => if thr ≤ e.nli x b then some ({x, b} : Multiset String) else none) l := by
        simp [List.filterMap_cons, hc]
      rw [e1, e2]
      exact List.perm_append_comm_assoc _ _ _
  | trans h1 h2 ih1 ih2 => exact ih1.trans ih2

theorem dissonance_scan_perm_invariant_witness :
    ((dissonance_scan engSym ["p", "q"] (13 / 20)).map pairKey).Perm
      ((dissonance_scan engSym ["q", "p"] (13 / 20)).map pairKey) :=
  dissonance_scan_perm_invariant engSym (13 / 20) ["p", "q"] ["q", "p"]
    (fun _ _ => rfl) (List.Perm.swap "q" "p" [])

theorem pyRound_one_three : pyRound 1 3 = 1 := by
  norm_num [pyRound, roundHalfEven]

/-- C9 (counterexample): with the directional collaborator `nliAsym`, the
input `["p", "q"]` is a permutation of `["q", "p"]`, yet the scan of the
first reports the unordered pair while the scan of the second reports
nothing, so the two outputs are not the same set of unordered pairs. -/
theorem dissonance_scan_perm_cex :
    ¬ ((dissonance_scan engAsym ["p", "q"] (13 / 20)).map pairKey).Perm
        ((dissonance_scan engAsym ["q", "p"] (13 / 20)).map pairKey) := by
  have h1 : dissonance_scan engAsym ["p", "q"] (13 / 20)
      = [{ a := "p", b := "q", contradiction := pyRound 1 3 }] := by
    rw [dissonance_scan_cons, dissonance_scan_cons]
    simp +decide only [engAsym, nliAsym, List.filterMap_cons]
    norm_num
    rfl
  have h2 : dissonance_scan engAsym ["q", "p"] (13 / 20) = [] := by
    rw [dissonance_scan_cons, dissonance_scan_cons]
    simp +decide only [engAsym, nliAsym, List.filterMap_cons]
    norm_num
    rfl
  intro hperm
  rw [h1, h2] at hperm
  exact absurd hperm.length_eq (by simp)

theorem filter_orderedInsert (v : ℚ) (x : Question) (l : List Question) :
    (List.orderedInsert novDescLE x l).filter (fun y => decide (y.novelty = v))
      = if x.novelty = v then x :: l.filter (fun y => decide (y.novelty = v))
        else l.filter (fun y => decide (y.novelty = v)) := by
  induction l with
  | nil =>
    by_cases hx : x.novelty = v <;> simp [List.orderedInsert, List.filter_cons, hx]
  | cons b t ih =>
    rw [List.orderedInsert]
    by_cases hr : novDescLE x b
    · rw [if_pos hr]
      by_cases hx : x.novelty = v <;> by_cases hb : b.novelty = v <;>
        simp [List.filter_cons, hx, hb]
    · rw [if_neg hr]
      have hbx : x.novelty < b.novelty := not_le.mp hr
      by_cases hb : b.novelty = v
      · have hx : ¬ x.novelty = v := by
          rw [← hb]
          exact ne_of_lt hbx
        simp [List.filter_cons, hb, hx, ih]
      · by_cases hx : x.novelty = v <;> simp [List.filter_cons, hb, hx, ih]

theorem filter_insertionSort (v : ℚ) (l : List Question) :
    (List.insertionSort novDescLE l).filter (fun y => decide (y.novelty = v))
      = l.filter (fun y => decide (y.novelty = v)) := by
  induction l with
  | nil => rfl
  | cons a t ih =>
    rw [List.insertionSort, filter_orderedInsert]
    by_cases hx : a.novelty = v <;> simp [List.filter_cons, hx, ih]

/-- C6: the batch returned by `generate_questions` is sorted in descending
order of novelty, and for every novelty value the subsequence of candidates
having that novelty equals the corresponding subsequence of the parsed
(pre-sort) candidate list: ties preserve the original parse order, because
Python's `list.sort` is stable. -/
theorem generate_questions_sorted_stable (e : Engine) (topic : String) (n : ℕ)
    (raw : String) (ls : List String) (qs : List Question)
    (hc : e.complete (promptFor ((e.search topic 6).map Prod.fst) n) = .ok raw)
    (hp : parseQuestions raw = .ok ls)
    (hq : generate_questions e topic n = .ok qs) :
    List.Sorted novDescLE qs
    ∧ ∀ v : ℚ,
        qs.filter (fun y => decide (y.novelty = v))
          = (ls.map fun l => { q := l, novelty := noveltyScore e l : Question }).filter
              (fun y => decide (y.novelty = v)) := by
  obtain ⟨raw2, ls2, hc2, hp2, hb⟩ := generate_questions_inv e topic n qs hq
  rw [hc] at hc2
  injection hc2 with hc2
  subst hc2
  rw [hp] at hp2
  injection hp2 with hp2
  subst hp2
  subst hb
  exact ⟨List.sorted_insertionSort novDescLE _, fun v => filter_insertionSort v _⟩

theorem generate_questions_sorted_stable_witness :
    List.Sorted novDescLE [⟨"abcdefg", 1 / 2⟩, ⟨"hijklmn", 1 / 2⟩]
    ∧ ([⟨"abcdefg", 1 / 2⟩, ⟨"hijklmn", 1 / 2⟩] : List Question).filter
          (fun y => decide (y.novelty = 1 / 2))
        = ((["abcdefg", "hijklmn"] : List String).map
            (fun l => { q := l, novelty := noveltyScore engB l : Question })).filter
            (fun y => decide (y.novelty = 1 / 2)) :=
  ⟨(generate_questions_sorted_stable engB "seed" 1 "abcdefg\nhijklmn"
      ["abcdefg", "hijklmn"] [⟨"abcdefg", 1 / 2⟩, ⟨"hijklmn", 1 / 2⟩]
      rfl engB_parse engB_gen).1,
   (generate_questions_sorted_stable engB "seed" 1 "abcdefg\nhijklmn"
      ["abcdefg", "hijklmn"] [⟨"abcdefg", 1 / 2⟩, ⟨"hijklmn", 1 / 2⟩]
      rfl engB_parse engB_gen).2 (1 / 2)⟩

/-- C8 (counterexample): when the completion collaborator signals a missing
API key by returning the diagnostic string `[OPENAI] missing OPENAI_API_KEY`
in place of generated text, the session is not aborted: the diagnostic line
is parsed as a candidate question, scores the neutral novelty 0.5 and enters
the trail. -/
theorem diagnostic_string_enters_trail :
    "[OPENAI] missing OPENAI_API_KEY"
      ∈ (trailOf (bounded_explore engDiag "black holes" 6 0)).map Question.q := by
  rw [engDiag_run]
  simp [trailOf, List.lookup]

set_option maxRecDepth 40000 in
theorem engMid_gen0 : generate_questions engMid "start" 6 = .ok [⟨"abcdef", 1⟩] := by
  simp +decide [generate_questions, engMid, parseQuestions, parseLinesAux, splitOnNl,
    processLine, pyStripChars, keepLine, noveltyScore, List.insertionSort]

set_option maxRecDepth 40000 in
theorem engMid_gen1 : generate_questions engMid "abcdef" 6 = .error "boom" := by
  have hne : promptFor ["c"] 6 ≠ promptFor [] 6 := by decide
  simp +decide [generate_questions, engMid, hne]

theorem engMid_reach : exploreLoop engMid 6 engMid.max_r 0 "start" []
    = exploreLoop engMid 6 1 1 "abcdef" [⟨"abcdef", 1⟩] := by
  have h2 : engMid.max_r = 2 := rfl
  have ht0 : engMid.timeExceeded 0 = false := rfl
  have hthr : engMid.nov_thr = 7 / 20 := rfl
  rw [h2]
  simp only [exploreLoop, ht0, Bool.false_eq_true, if_false, engMid_gen0, List.filter_cons,
    List.filter_nil, hthr, List.nil_append]
  norm_num

/-- C8 (amended): a raised completion fault propagates unmodified to the
session boundary, from whatever round it strikes in: if the session loop
reaches round `k` with accumulated trail `acc` — an arbitrary list, possibly
nonempty — and the completion collaborator raises there before the time
check fires, the whole session aborts with that fault.  The core performs no
retries, and the error result carries no trail, so the questions accumulated
before the fault are discarded.  A failure returned as a diagnostic string,
however, is not detected and can enter the trail as a candidate question. -/
theorem bounded_explore_fault_aborts (e : Engine) (seed : String) (perRound : ℕ)
    (elapsed : ℚ) (err : String) (fuel k : ℕ) (seedk : String) (acc : List Question)
    (hreach : exploreLoop e perRound e.max_r 0 seed []
        = exploreLoop e perRound (fuel + 1) k seedk acc)
    (htime : e.timeExceeded k = false)
    (herr : generate_questions e seedk perRound = .error err) :
    bounded_explore e seed perRound elapsed = .error err := by
  have hstep : exploreLoop e perRound (fuel + 1) k seedk acc = .error err := by
    simp only [exploreLoop, htime, Bool.false_eq_true, if_false, herr]
  unfold bounded_explore
  rw [hreach, hstep]

theorem bounded_explore_fault_aborts_witness :
    bounded_explore engMid "start" 6 0 = .error "boom" :=
  bounded_explore_fault_aborts engMid "start" 6 0 "boom" 0 1 "abcdef" [⟨"abcdef", 1⟩]
    engMid_reach rfl engMid_gen1

/-- C10: for every requested count `n`, the number of candidates returned by
`generate_questions` equals the number of completion lines surviving parsing;
`n` shapes only the prompt text, and no truncation to `n` is applied, so a
completion with more than `n` valid lines yields more than `n` candidates. -/
theorem generate_questions_count (e : Engine) (topic : String) (n : ℕ)
    (raw : String) (ls : List String) (qs : List Question)
    (hc : e.complete (promptFor ((e.search topic 6).map Prod.fst) n) = .ok raw)
    (hp : parseQuestions raw = .ok ls)
    (hq : generate_questions e topic n = .ok qs) :
    qs.length = ls.length := by
  obtain ⟨raw2, ls2, hc2, hp2, hb⟩ := generate_questions_inv e topic n qs hq
  rw [hc] at hc2
  injection hc2 with hc2
  subst hc2
  rw [hp] at hp2
  injection hp2 with hp2
  subst hp2
  rw [hb, (List.perm_insertionSort _ _).length_eq, List.length_map]

theorem generate_questions_count_witness :
    ([⟨"abcdefg", 1 / 2⟩, ⟨"hijklmn", 1 / 2⟩] : List Question).length
      = (["abcdefg", "hijklmn"] : List String).length :=
  generate_questions_count engB "seed" 1 "abcdefg\nhijklmn" ["abcdefg", "hijklmn"]
    [⟨"abcdefg", 1 / 2⟩, ⟨"hijklmn", 1 / 2⟩] rfl engB_parse engB_gen

end Curiosity
